import Mathlib

/-!
Verification development for the `crypto-exchange-ganache-ETH` repository.

The repository's `server` package (file `src/unnamed/part_000`) wires an
HTTP layer over an `orderbook` package.  The `server` package is embedded
here directly from its Go source; the `orderbook` package is not among the
provided sources, so its operations (`NewOrder`, `PlaceLimitOrder`,
`PlaceMarketOrder`, `CancelOrder`, `IsFilled`, the `Limit`/`Orderbook`
data) are modelled from the specification (spec.md §3, §4) and are marked
`Modelled from the spec:` in their doc comments.

Prices and sizes (Go `float64`) are modelled as `ℚ`; 64-bit integer ids
and user ids as `ℤ`.  Go `nil`-pointer dereference is modelled by the
`HResult.panicked` outcome (or `Option.none` for internal helpers).
Order objects live on a heap indexed by order id, so that the aliasing of
Go pointers (the book, the order-id index and the per-user order lists
all point at the same mutable `Order`) is reflected faithfully.
-/

namespace CryptoExchange

/-- Embeds `orderbook.Order` (modelled from the spec §3: id, user_id, bid,
size, timestamp, and the back reference `limit_ref`, here the owning
Limit's price, `none` when the order is not resting). -/
structure OBOrder where
  id : ℤ
  userID : ℤ
  bid : Bool
  size : ℚ
  timestamp : ℤ
  limitPrice : Option ℚ
deriving DecidableEq

/-- Modelled from the spec: a `Limit` price level — exact price, FIFO
queue of resting orders (head is oldest = highest priority, stored by
order id into the heap), and the cached `total_volume`. -/
structure Limit where
  price : ℚ
  orderIDs : List ℤ
  totalVolume : ℚ
deriving DecidableEq

/-- Embeds `orderbook.Trade` (spec §3: price, size, taker side, timestamp). -/
structure Trade where
  price : ℚ
  size : ℚ
  bid : Bool
  timestamp : ℤ
deriving DecidableEq

/-- Embeds `orderbook.Match`.  The Go `Match` holds pointers to the bid
and ask `Order`; the server only ever reads their `ID` and `UserID`
fields (which never change after creation), together with `SizeFilled`
and `Price`, so the record keeps exactly those projections. -/
structure MatchRec where
  bidID : ℤ
  bidUserID : ℤ
  askID : ℤ
  askUserID : ℤ
  sizeFilled : ℚ
  price : ℚ
deriving DecidableEq

/-- Embeds `server.MatchedOrder`. -/
structure MatchedOrder where
  userID : ℤ
  price : ℚ
  size : ℚ
  id : ℤ
deriving DecidableEq

/-- Embeds the wire-level `server.Order` struct
`{UserID, ID, Price, Size, Bid, Timestamp}`. -/
structure WireOrder where
  userID : ℤ
  id : ℤ
  price : ℚ
  size : ℚ
  bid : Bool
  timestamp : ℤ
deriving DecidableEq

/-- The zero-valued wire `Order` (`order := Order{}` in Go). -/
def zeroWireOrder : WireOrder :=
  { userID := 0, id := 0, price := 0, size := 0, bid := false, timestamp := 0 }

/-- Embeds `server.GetOrdersResponse`. -/
structure GetOrdersResponse where
  asks : List WireOrder
  bids : List WireOrder
deriving DecidableEq

/-- Embeds `server.OrderbookData`. -/
structure OrderbookData where
  totalBidVolume : ℚ
  totalAskVolume : ℚ
  asks : List WireOrder
  bids : List WireOrder
deriving DecidableEq

/-- Embeds `server.PlaceOrderRequest`.  Note there is no order-id field:
a client can never supply an order id. -/
structure PlaceOrderRequest where
  userID : ℤ
  type : String
  bid : Bool
  size : ℚ
  price : ℚ
  market : String

/-- Embeds `server.PlaceOrderResponse`. -/
structure PlaceOrderResponse where
  orderID : ℤ
deriving DecidableEq

/-- Embeds `server.User`.  The ECDSA private key is opaque key material;
it is modelled by an integer, and `PubkeyToAddress` of its public key by
the same integer (the engine never inspects either). -/
structure User where
  id : ℤ
  privateKey : ℤ
deriving DecidableEq

/-- One on-chain ETH transfer as issued by `transferETH`: the sender is
identified by the ask-side user's key, the recipient by the bid-side
user's address, `amount` is the `big.Int` wei amount. -/
structure Transfer where
  fromUserID : ℤ
  toUserID : ℤ
  amount : ℤ
deriving DecidableEq

/-- Outcome of an HTTP handler: `ok` a 200 JSON body, `badRequest` a 400
JSON error body, `err` an error returned to echo (the claim-relevant
point is that it is not a 200 body), `panicked` a nil-pointer
dereference crash inside the handler. -/
inductive HResult (α : Type) where
  | ok (body : α)
  | badRequest (msg : String)
  | err (msg : String)
  | panicked
deriving DecidableEq

/-- The Go heap of `orderbook.Order` objects, indexed by order id. -/
abbrev Heap := ℤ → Option OBOrder

/-- Point update of one order object on the heap (a Go in-place mutation
through a pointer). -/
def updHeap (heap : Heap) (oid : ℤ) (f : OBOrder → OBOrder) : Heap :=
  fun i => if i = oid then (heap i).map f else heap i

/-- State of the `server.Exchange` together with its single `"ETH"`
`orderbook.Orderbook` (per `NewExchange`, the `orderbooks` map holds
exactly the key `"ETH"`):
* `heap`, `nextID`: the order objects and the engine's id counter
  (Modelled from the spec: ids are engine-assigned by a monotonic
  counter, spec §5);
* `clock`: the wall clock used for creation timestamps;
* `bids`/`asks`: the book sides, best price first;
* `restingIDs`: the key set of the Orderbook's order-id map `ob.Orders`;
* `trades`: the append-only trade log;
* `userOrders`: `Exchange.Orders`, user id ↦ ids of that user's orders;
* `users`: `Exchange.Users` as an association list. -/
structure ExchangeState where
  heap : Heap
  nextID : ℤ
  clock : ℤ
  bids : List Limit
  asks : List Limit
  restingIDs : List ℤ
  trades : List Trade
  userOrders : List (ℤ × List ℤ)
  users : List (ℤ × User)

/-- Reads `ex.Orders[userID]` — a missing key reads as the empty list. -/
def lookupUserOrders (l : List (ℤ × List ℤ)) (u : ℤ) : List ℤ :=
  (l.lookup u).getD []

/-- Reads `ex.Users[userID]`. -/
def lookupUser (l : List (ℤ × User)) (u : ℤ) : Option User :=
  l.lookup u

/-- Modelled from the spec: `order.IsFilled()` — true iff `size == 0`
(spec §4.1), read through the heap.  Every id stored in the exchange
resolves on the heap; the `none` branch is unreachable. -/
def heapIsFilled (heap : Heap) (oid : ℤ) : Bool :=
  match heap oid with
  | some o => o.size == 0
  | none => true

/-- Go's `int64(f)` conversion applied to `match.SizeFilled` in
`handleMatches` (`big.NewInt(int64(match.SizeFilled))`): truncation of
the rational toward zero. -/
def int64trunc (q : ℚ) : ℤ :=
  Int.tdiv q.num q.den

/-- Modelled from the spec: `NewOrder` (spec §4.1) — fails only if
`size <= 0`; otherwise constructs an order with a freshly drawn unique
id and the current timestamp, places it on the heap, and advances the
id counter.  Returns the new order's id with the new state. -/
def newOrder (st : ExchangeState) (bid : Bool) (size : ℚ) (userID : ℤ) :
    Option (ℤ × ExchangeState) :=
  if size ≤ 0 then none
  else
    let oid := st.nextID
    let o : OBOrder :=
      { id := oid, userID := userID, bid := bid, size := size,
        timestamp := st.clock, limitPrice := none }
    some (oid, { st with heap := fun i => if i = oid then some o else st.heap i,
                         nextID := st.nextID + 1 })

/-- Total volume of one book side: sum of the Limits' cached volumes
(`BidTotalVolume` / `AskTotalVolume`). -/
def sideVolume (side : List Limit) : ℚ :=
  (side.map Limit.totalVolume).sum

/-- Modelled from the spec: the inner loop of `place_market` (spec §4.3
step 3) over one Limit's FIFO queue.  `takerBid`/`takerID`/`takerUser`
identify the incoming order, `price` is the Limit's price, `isize` the
incoming order's remaining size.  Returns the heap after the in-place
size mutations, the remaining incoming size, the remaining queue, the
emitted Matches in order, and the ids of fully filled resting orders
(removed from the order-id map). -/
def fillOrders (takerBid : Bool) (takerID takerUser : ℤ) (price : ℚ) :
    Heap → List ℤ → ℚ → Heap × ℚ × List ℤ × List MatchRec × List ℤ
  | heap, [], isize => (heap, isize, [], [], [])
  | heap, rid :: rest, isize =>
    if isize ≤ 0 then (heap, isize, rid :: rest, [], [])
    else
      match heap rid with
      | none => fillOrders takerBid takerID takerUser price heap rest isize
      | some r =>
        let f := min r.size isize
        let m : MatchRec :=
          if takerBid then
            { bidID := takerID, bidUserID := takerUser,
              askID := rid, askUserID := r.userID,
              sizeFilled := f, price := price }
          else
            { bidID := rid, bidUserID := r.userID,
              askID := takerID, askUserID := takerUser,
              sizeFilled := f, price := price }
        let heap1 := updHeap heap rid (fun o => { o with size := o.size - f })
        let heap2 := updHeap heap1 takerID (fun o => { o with size := o.size - f })
        if r.size - f = 0 then
          let heap3 := updHeap heap2 rid (fun o => { o with limitPrice := none })
          let res := fillOrders takerBid takerID takerUser price heap3 rest (isize - f)
          (res.1, res.2.1, res.2.2.1, m :: res.2.2.2.1, rid :: res.2.2.2.2)
        else
          (heap2, isize - f, rid :: rest, [m], [])

/-- Modelled from the spec: the walk of `place_market` over the opposite
side's Limits in priority order (spec §4.3 step 3).  Returns the heap,
the unfilled remainder of the incoming size, the surviving side, the
Matches, and the removed resting order ids. -/
def walkLimits (takerBid : Bool) (takerID takerUser : ℤ) :
    Heap → List Limit → ℚ → Heap × ℚ × List Limit × List MatchRec × List ℤ
  | heap, [], isize => (heap, isize, [], [], [])
  | heap, L :: rest, isize =>
    if isize ≤ 0 then (heap, isize, L :: rest, [], [])
    else
      let res := fillOrders takerBid takerID takerUser L.price heap L.orderIDs isize
      let heap1 := res.1
      let isize1 := res.2.1
      let queue1 := res.2.2.1
      let ms1 := res.2.2.2.1
      let rm1 := res.2.2.2.2
      if queue1 = [] then
        let tail := walkLimits takerBid takerID takerUser heap1 rest isize1
        (tail.1, tail.2.1, tail.2.2.1, ms1 ++ tail.2.2.2.1, rm1 ++ tail.2.2.2.2)
      else
        (heap1, isize1,
         { L with orderIDs := queue1,
                  totalVolume := L.totalVolume - (isize - isize1) } :: rest,
         ms1, rm1)

/-- Modelled from the spec: `Orderbook.PlaceMarketOrder` (spec §4.3).
Determines the opposite side, fails (`none`) when that side's aggregate
volume is strictly below the incoming size, otherwise consumes liquidity
best price first, appends one Trade per Match, and removes fully filled
resting orders from the order-id map.  The incoming order is identified
by its id on the heap. -/
def placeMarketOrder (st : ExchangeState) (oid : ℤ) :
    Option (List MatchRec × ExchangeState) :=
  match st.heap oid with
  | none => none
  | some o =>
    let opp := if o.bid then st.asks else st.bids
    if sideVolume opp < o.size then none
    else
      let res := walkLimits o.bid oid o.userID st.heap opp o.size
      let ms := res.2.2.2.1
      let removed := res.2.2.2.2
      let newTrades :=
        ms.map (fun m =>
          { price := m.price, size := m.sizeFilled, bid := o.bid,
            timestamp := st.clock : Trade })
      let st1 :=
        if o.bid then
          { st with heap := res.1, asks := res.2.2.1,
                    restingIDs := st.restingIDs.filter (fun i => !(removed.contains i)),
                    trades := st.trades ++ newTrades }
        else
          { st with heap := res.1, bids := res.2.2.1,
                    restingIDs := st.restingIDs.filter (fun i => !(removed.contains i)),
                    trades := st.trades ++ newTrades }
      some (ms, st1)

/-- Modelled from the spec: insertion of an order into one sorted side
(`place_limit`, spec §4.3): find the Limit at this exact price, or create
one at the position that keeps the side sorted (`desc` = bids descending,
asks ascending); `add_order` appends at the FIFO tail and adds the
order's size to the cached volume. -/
def addToSide (desc : Bool) (price : ℚ) (oid : ℤ) (sz : ℚ) :
    List Limit → List Limit
  | [] => [{ price := price, orderIDs := [oid], totalVolume := sz }]
  | L :: rest =>
    if L.price = price then
      { L with orderIDs := L.orderIDs ++ [oid],
               totalVolume := L.totalVolume + sz } :: rest
    else if (if desc then L.price < price else price < L.price) then
      { price := price, orderIDs := [oid], totalVolume := sz } :: L :: rest
    else
      L :: addToSide desc price oid sz rest

/-- Modelled from the spec: `Orderbook.PlaceLimitOrder` (spec §4.3) —
registers the order in the order-id map, sets its back reference, and
inserts it into the side at its price.  Limit orders are pure makers:
they never cross on entry. -/
def placeLimitOrder (st : ExchangeState) (price : ℚ) (oid : ℤ) :
    ExchangeState :=
  match st.heap oid with
  | none => st
  | some o =>
    let heap1 := updHeap st.heap oid (fun x => { x with limitPrice := some price })
    if o.bid then
      { st with heap := heap1,
                bids := addToSide true price oid o.size st.bids,
                restingIDs := oid :: st.restingIDs }
    else
      { st with heap := heap1,
                asks := addToSide false price oid o.size st.asks,
                restingIDs := oid :: st.restingIDs }

/-- Modelled from the spec: deletion of a resting order from its side
(`Limit.delete_order` plus the empty-Limit cleanup, spec §4.2/§4.3). -/
def deleteFromSide (price : ℚ) (oid : ℤ) (sz : ℚ) :
    List Limit → List Limit
  | [] => []
  | L :: rest =>
    if L.price = price then
      let queue := L.orderIDs.erase oid
      if queue = [] then rest
      else { L with orderIDs := queue, totalVolume := L.totalVolume - sz } :: rest
    else
      L :: deleteFromSide price oid sz rest

/-- Modelled from the spec: `Orderbook.CancelOrder` (spec §4.3 cancel):
when the order reference is nil or its `limit_ref` is null the call is a
no-op; otherwise the order is deleted from its Limit (removing the Limit
when it empties), its back reference cleared, and its id removed from
the order-id map. -/
def cancelOrderOB (st : ExchangeState) (order : Option OBOrder) :
    ExchangeState :=
  match order with
  | none => st
  | some o =>
    match o.limitPrice with
    | none => st
    | some p =>
      let heap1 := updHeap st.heap o.id (fun x => { x with limitPrice := none })
      if o.bid then
        { st with heap := heap1,
                  bids := deleteFromSide p o.id o.size st.bids,
                  restingIDs := st.restingIDs.filter (fun i => i != o.id) }
      else
        { st with heap := heap1,
                  asks := deleteFromSide p o.id o.size st.asks,
                  restingIDs := st.restingIDs.filter (fun i => i != o.id) }

/-- The `matchedOrders` array built by `handlePlaceMarketOrder`
(part_000 lines 333–345): for each Match, the counterparty's id and user
id (the ask side when the incoming order is a bid, else the bid side),
the fill size and the match price. -/
def matchedOrdersOf (isBid : Bool) (ms : List MatchRec) : List MatchedOrder :=
  ms.map (fun m =>
    if isBid then
      { userID := m.askUserID, price := m.price, size := m.sizeFilled, id := m.askID }
    else
      { userID := m.bidUserID, price := m.price, size := m.sizeFilled, id := m.bidID })

/-- The `sumPrice` accumulated by the loop of `handlePlaceMarketOrder`
(line 347): the sum of the per-match prices, unweighted. -/
def sumPriceOf (ms : List MatchRec) : ℚ :=
  ms.foldl (fun s m => s + m.price) 0

/-- The `totalSizeFilled` accumulated by the same loop (line 346). -/
def totalSizeFilledOf (ms : List MatchRec) : ℚ :=
  ms.foldl (fun s m => s + m.sizeFilled) 0

/-- The `avgPrice := sumPrice / float64(len(matches))` of part_000 line 350 —
the average fill price computed and logged by `handlePlaceMarketOrder`. -/
def marketAvgPrice (ms : List MatchRec) : ℚ :=
  sumPriceOf ms / (ms.length : ℚ)

/-- Written from the spec's words, for comparison: the unweighted
arithmetic mean of the match prices ("the sum of the per-match prices
divided by the number of Matches"). -/
def specMeanPrice (ms : List MatchRec) : ℚ :=
  (ms.map MatchRec.price).sum / (ms.length : ℚ)

/-- Written from the spec's words, for comparison: the size-weighted
volume average (VWAP) of the match prices. -/
def specVWAP (ms : List MatchRec) : ℚ :=
  (ms.map (fun m => m.price * m.sizeFilled)).sum /
    (ms.map MatchRec.sizeFilled).sum

/-- The rebuild of `ex.Orders` performed under the lock by
`handlePlaceMarketOrder` (part_000 lines 358–370): each user keeps
exactly their orders that are not filled. -/
def pruneUserOrders (heap : Heap) (l : List (ℤ × List ℤ)) :
    List (ℤ × List ℤ) :=
  l.map (fun p => (p.1, p.2.filter (fun i => !(heapIsFilled heap i))))

/-- Embeds `Exchange.handlePlaceMarketOrder` (part_000 lines 325–374):
look up the market's book (`none` models the nil dereference on an
unknown market, or an engine failure), run `PlaceMarketOrder`, build
`matchedOrders`, then rebuild `ex.Orders` keeping only unfilled orders.
The logged `avgPrice` of the call is `marketAvgPrice` of the matches. -/
def handlePlaceMarketOrder (st : ExchangeState) (market : String) (oid : ℤ) :
    Option (List MatchRec × List MatchedOrder × ExchangeState) :=
  if market = "ETH" then
    match placeMarketOrder st oid with
    | none => none
    | some (ms, st1) =>
      let isBid := match st.heap oid with | some o => o.bid | none => false
      some (ms, matchedOrdersOf isBid ms,
            { st1 with userOrders := pruneUserOrders st1.heap st1.userOrders })
  else none

/-- Performs `ex.Orders[order.UserID] = append(ex.Orders[order.UserID], order)`
on the association-list model of the map. -/
def insertUserOrder : List (ℤ × List ℤ) → ℤ → ℤ → List (ℤ × List ℤ)
  | [], u, oid => [(u, [oid])]
  | p :: rest, u, oid =>
    if p.1 = u then (p.1, p.2 ++ [oid]) :: rest
    else p :: insertUserOrder rest u oid

/-- Embeds `Exchange.handlePlaceLimitOrder` (part_000 lines 376–386):
place the limit order in the market's book and record it under its
user's entry of `ex.Orders`.  `none` models the nil dereference on an
unknown market. -/
def handlePlaceLimitOrder (st : ExchangeState) (market : String)
    (price : ℚ) (oid : ℤ) : Option ExchangeState :=
  if market = "ETH" then
    let st1 := placeLimitOrder st price oid
    let uid := match st.heap oid with | some o => o.userID | none => 0
    some { st1 with userOrders := insertUserOrder st1.userOrders uid oid }
  else none

/-- The transfer `transferETH` issues for one Match inside
`handleMatches` (part_000 lines 435–445): from the ask-side user's key
to the bid-side user's address, for `big.NewInt(int64(match.SizeFilled))`
wei. -/
def mkTransfer (m : MatchRec) : Transfer :=
  { fromUserID := m.askUserID, toUserID := m.bidUserID,
    amount := int64trunc m.sizeFilled }

/-- Embeds `Exchange.handleMatches` (part_000 lines 423–449): walk the
matches in order; for each, look up the ask-side user then the bid-side
user, returning an error as soon as one is unregistered (without sending
that match's transfer); otherwise send the transfer and continue.
Returns the transfers actually sent and the overall outcome. -/
def handleMatches (users : List (ℤ × User)) :
    List MatchRec → List Transfer × Except String Unit
  | [] => ([], Except.ok ())
  | m :: rest =>
    match lookupUser users m.askUserID with
    | none => ([], Except.error ("user not found: " ++ toString m.askUserID))
    | some _ =>
      match lookupUser users m.bidUserID with
      | none => ([], Except.error ("user not found: " ++ toString m.bidUserID))
      | some _ =>
        let res := handleMatches users rest
        (mkTransfer m :: res.1, res.2)

/-- Embeds `Exchange.handlePlaceOrder` (part_000 lines 392–421): decode
(out of scope here), construct a fresh order via `NewOrder` — whose
spec-modelled failure on `size <= 0` the Go call site cannot handle and
so surfaces as a crash, not a 200 — then dispatch on the request's
`Type`: `"LIMIT"` places a limit order, `"MARKET"` places a market
order and settles its matches (propagating a settlement error),
anything else falls through both branches; respond 200 with the new
order's id. -/
def handlePlaceOrder (st : ExchangeState) (req : PlaceOrderRequest) :
    HResult PlaceOrderResponse × ExchangeState :=
  match newOrder st req.bid req.size req.userID with
  | none => (HResult.panicked, st)
  | some (oid, st1) =>
    if req.type = "LIMIT" then
      match handlePlaceLimitOrder st1 req.market req.price oid with
      | none => (HResult.panicked, st1)
      | some st2 => (HResult.ok { orderID := oid }, st2)
    else if req.type = "MARKET" then
      match handlePlaceMarketOrder st1 req.market oid with
      | none => (HResult.panicked, st1)
      | some (ms, _, st2) =>
        match (handleMatches st2.users ms).2 with
        | Except.error e => (HResult.err e, st2)
        | Except.ok _ => (HResult.ok { orderID := oid }, st2)
    else (HResult.ok { orderID := oid }, st1)

/-- Embeds `Exchange.cancelOrder` (part_000 lines 313–323): parse the id,
fetch `ob.Orders[id]` from the ETH book (nil when absent), call the
engine's `CancelOrder` on it, and respond 200 `{"msg":"order deleted"}`
unconditionally. -/
def cancelOrder (st : ExchangeState) (id : ℤ) :
    HResult String × ExchangeState :=
  let order := if st.restingIDs.contains id then st.heap id else none
  (HResult.ok "order deleted", cancelOrderOB st order)

/-- Embeds `Exchange.handleGetTrades` (part_000 lines 179–188). -/
def handleGetTrades (st : ExchangeState) (market : String) :
    HResult (List Trade) :=
  if market = "ETH" then HResult.ok st.trades
  else HResult.badRequest "orderbook not found"

/-- The wire rendering of one book side by `handleGetBook`: every order
of every Limit, with the owning Limit's price. -/
def renderSide (heap : Heap) (side : List Limit) : List WireOrder :=
  (side.map (fun L =>
    L.orderIDs.filterMap (fun oid =>
      (heap oid).map (fun o =>
        { userID := o.userID, id := o.id, price := L.price, size := o.size,
          bid := o.bid, timestamp := o.timestamp : WireOrder })))).flatten

/-- Embeds `Exchange.handleGetBook` (part_000 lines 231–273): an unknown
market is answered with a 400 `"market not found"`; otherwise volumes
and both sides are rendered. -/
def handleGetBook (st : ExchangeState) (market : String) :
    HResult OrderbookData :=
  if market = "ETH" then
    HResult.ok
      { totalBidVolume := sideVolume st.bids,
        totalAskVolume := sideVolume st.asks,
        asks := renderSide st.heap st.asks,
        bids := renderSide st.heap st.bids }
  else HResult.badRequest "market not found"

/-- Embeds `Exchange.handleGetBestBid` (part_000 lines 279–294): the
market is looked up WITHOUT an existence check, so an unknown market is
a nil dereference (`panicked`); an empty bid side answers the
zero-valued `Order`; otherwise only `Price` and `UserID` are set, from
the first Limit and its head order. -/
def handleGetBestBid (st : ExchangeState) (market : String) :
    HResult WireOrder :=
  if market = "ETH" then
    match st.bids with
    | [] => HResult.ok zeroWireOrder
    | L :: _ =>
      match L.orderIDs with
      | [] => HResult.panicked
      | rid :: _ =>
        match st.heap rid with
        | none => HResult.panicked
        | some o =>
          HResult.ok { zeroWireOrder with price := L.price, userID := o.userID }
  else HResult.panicked

/-- Embeds `Exchange.handleGetBestAsk` (part_000 lines 296–311),
symmetric to `handleGetBestBid`. -/
def handleGetBestAsk (st : ExchangeState) (market : String) :
    HResult WireOrder :=
  if market = "ETH" then
    match st.asks with
    | [] => HResult.ok zeroWireOrder
    | L :: _ =>
      match L.orderIDs with
      | [] => HResult.panicked
      | rid :: _ =>
        match st.heap rid with
        | none => HResult.panicked
        | some o =>
          HResult.ok { zeroWireOrder with price := L.price, userID := o.userID }
  else HResult.panicked

/-- The wire rendering of one of the user's orders by `handleGetOrders`,
given the price of its owning Limit. -/
def renderUserOrder (o : OBOrder) (p : ℚ) : WireOrder :=
  { userID := o.userID, id := o.id, price := p, size := o.size,
    bid := o.bid, timestamp := o.timestamp }

/-- One iteration of the loop of `handleGetOrders` (part_000 lines
204–225): orders whose `Limit` back reference is nil are skipped;
otherwise the order is rendered with its Limit's price and appended to
`Bids` when its `Bid` flag is set, else to `Asks`. -/
def getOrdersStep (heap : Heap) (resp : GetOrdersResponse) (oid : ℤ) :
    GetOrdersResponse :=
  match heap oid with
  | none => resp
  | some o =>
    match o.limitPrice with
    | none => resp
    | some p =>
      let w := renderUserOrder o p
      if w.bid then { resp with bids := resp.bids ++ [w] }
      else { resp with asks := resp.asks ++ [w] }

/-- Embeds `Exchange.handleGetOrders` (part_000 lines 190–229). -/
def handleGetOrders (st : ExchangeState) (userID : ℤ) : GetOrdersResponse :=
  (lookupUserOrders st.userOrders userID).foldl (getOrdersStep st.heap)
    { asks := [], bids := [] }

/-- Events of the market-order path of `handlePlaceOrder`, in program
order: the call into and the return from `ob.PlaceMarketOrder`
(part_000 line 327), the take and release of `ex.mu` around the
`ex.Orders` rebuild (lines 359/371), the ETH transfers of
`handleMatches` (line 445), and the HTTP response (line 420). -/
inductive TraceEvent where
  | engineCall
  | engineReturn
  | lockAcquire
  | lockRelease
  | transfer (fromUserID toUserID : ℤ) (amount : ℤ)
  | httpResponse
deriving DecidableEq

/-- Whether a trace event is a settlement transfer. -/
def isTransferEvent : TraceEvent → Bool
  | TraceEvent.transfer _ _ _ => true
  | _ => false

/-- The transfer events emitted by `handleMatches`, in emission order
(the walk stops, without transferring, at the first match naming an
unregistered user). -/
def transferEvents (users : List (ℤ × User)) :
    List MatchRec → List TraceEvent
  | [] => []
  | m :: rest =>
    match lookupUser users m.askUserID with
    | none => []
    | some _ =>
      match lookupUser users m.bidUserID with
      | none => []
      | some _ =>
        TraceEvent.transfer m.askUserID m.bidUserID (int64trunc m.sizeFilled) ::
          transferEvents users rest

/-- The event trace of one market-order placement through
`handlePlaceOrder` (part_000 lines 410–416): the engine call and return
and the locked `ex.Orders` rebuild inside `handlePlaceMarketOrder`,
then the settlement transfers of `handleMatches`, then the response. -/
def marketOrderTrace (users : List (ℤ × User)) (ms : List MatchRec) :
    List TraceEvent :=
  [TraceEvent.engineCall, TraceEvent.engineReturn,
   TraceEvent.lockAcquire, TraceEvent.lockRelease] ++
    transferEvents users ms ++ [TraceEvent.httpResponse]

/-! ## Example states and inputs used by witnesses and counterexamples -/

/-- The Exchange right after `NewExchange`: one empty `"ETH"` book, no
orders, no users. -/
def emptyState : ExchangeState :=
  { heap := fun _ => none, nextID := 1, clock := 0, bids := [], asks := [],
    restingIDs := [], trades := [], userOrders := [], users := [] }

/-- A handler outcome is a 200 success. -/
def isSuccess {α : Type} : HResult α → Bool
  | HResult.ok _ => true
  | _ => false

/-- A handler outcome is a 400 validation error. -/
def isBadRequest {α : Type} : HResult α → Bool
  | HResult.badRequest _ => true
  | _ => false

/-- Two matches of unequal size at unequal prices: unweighted mean 150,
VWAP 175. -/
def c1Example : List MatchRec :=
  [{ bidID := 3, bidUserID := 1, askID := 1, askUserID := 8888,
     sizeFilled := 1, price := 100 },
   { bidID := 3, bidUserID := 1, askID := 2, askUserID := 8888,
     sizeFilled := 3, price := 200 }]

/-- A book with one resting bid (user 8888, size 5 at price 100) and one
resting ask (user 6667, size 3 at price 110). -/
def c4State : ExchangeState :=
  { heap := fun i =>
      if i = 1 then
        some { id := 1, userID := 8888, bid := true, size := 5,
               timestamp := 0, limitPrice := some 100 }
      else if i = 2 then
        some { id := 2, userID := 6667, bid := false, size := 3,
               timestamp := 0, limitPrice := some 110 }
      else none,
    nextID := 3, clock := 0,
    bids := [{ price := 100, orderIDs := [1], totalVolume := 5 }],
    asks := [{ price := 110, orderIDs := [2], totalVolume := 3 }],
    restingIDs := [1, 2], trades := [], userOrders := [(8888, [1]), (6667, [2])],
    users := [] }

/-! ## C1 — average fill price is the unweighted mean of match prices -/

lemma sumPriceOf_eq_sum (ms : List MatchRec) :
    sumPriceOf ms = (ms.map MatchRec.price).sum := by
  suffices h : ∀ a : ℚ, ms.foldl (fun s m => s + m.price) a =
      a + (ms.map MatchRec.price).sum by
    simpa [sumPriceOf] using h 0
  induction ms with
  | nil => intro a; simp
  | cons m rest ih =>
    intro a
    simp only [List.foldl_cons, List.map_cons, List.sum_cons, ih]
    ring

/-- C1: for every market order with at least one match, the average fill
price computed and logged by `handlePlaceMarketOrder` equals the sum of
the per-match prices divided by the number of Matches (an unweighted
arithmetic mean), and this is not the size-weighted VWAP: on
`c1Example` the two disagree (150 versus 175). -/
theorem c1_avgPrice_unweighted_mean (ms : List MatchRec) (h : ms ≠ []) :
    marketAvgPrice ms = specMeanPrice ms ∧
    marketAvgPrice c1Example ≠ specVWAP c1Example := by
  refine ⟨?_, by norm_num [marketAvgPrice, specVWAP, sumPriceOf, c1Example]⟩
  simp [marketAvgPrice, specMeanPrice, sumPriceOf_eq_sum]

/-- Witness for C1 at `c1Example`. -/
theorem c1_avgPrice_witness :
    c1Example ≠ [] ∧
      (marketAvgPrice c1Example = specMeanPrice c1Example ∧
       marketAvgPrice c1Example ≠ specVWAP c1Example) :=
  ⟨by simp [c1Example], c1_avgPrice_unweighted_mean c1Example (by simp [c1Example])⟩

/-! ## C2 — cancel of an unknown id: silent success at the boundary -/

/-- C2 counterexample: a DELETE for the unknown order id 5 on the fresh
exchange is answered with the 200 success body `"order deleted"` and no
state change — not a distinct error, contradicting the claim that the
failure is surfaced to the caller. -/
theorem c2_counterexample :
    isSuccess (cancelOrder emptyState 5).1 = true ∧
      cancelOrder emptyState 5 = (HResult.ok "order deleted", emptyState) :=
  ⟨rfl, rfl⟩

/-- C2 amended: every DELETE `/order/{id}` — known or unknown id — is
answered with the same 200 success body `"order deleted"`; an unknown or
already-removed id is internally a no-op (no state change), but no
error ever reaches the caller. -/
theorem c2_cancel_silent_success (st : ExchangeState) (id : ℤ) :
    (cancelOrder st id).1 = HResult.ok "order deleted" ∧
      (id ∉ st.restingIDs → (cancelOrder st id).2 = st) := by
  constructor
  · rfl
  · intro h
    simp only [cancelOrder]
    rw [if_neg (by simpa using h)]
    rfl

/-- Witness for C2 at the fresh exchange and the unknown id 5. -/
theorem c2_cancel_witness :
    (cancelOrder emptyState 5).1 = HResult.ok "order deleted" ∧
      (cancelOrder emptyState 5).2 = emptyState :=
  ⟨(c2_cancel_silent_success emptyState 5).1,
   (c2_cancel_silent_success emptyState 5).2 (by decide)⟩

/-! ## C3 — unknown market: only `/book` and `/trades` validate -/

/-- C3 counterexample: on the unknown market `"BTC"`,
`handleGetBestBid` does not answer a validation error — it dereferences
the missing orderbook and crashes — while `handleGetBook` does answer
one, so the claimed uniformity across the market-keyed endpoints fails. -/
theorem c3_counterexample :
    isBadRequest (handleGetBestBid emptyState "BTC") = false ∧
      handleGetBestBid emptyState "BTC" = HResult.panicked ∧
      handleGetBestAsk emptyState "BTC" = HResult.panicked ∧
      isBadRequest (handleGetBook emptyState "BTC") = true := by
  refine ⟨rfl, rfl, rfl, rfl⟩

/-- C3 amended: for every market other than `"ETH"`, `handleGetBook` and
`handleGetTrades` answer a 400 validation error, but `handleGetBestBid`
and `handleGetBestAsk` dereference the missing orderbook and crash
instead of reporting; none of the four touches the exchange state
(they are pure reads of it). -/
theorem c3_unknown_market (st : ExchangeState) (market : String)
    (h : market ≠ "ETH") :
    handleGetBook st market = HResult.badRequest "market not found" ∧
      handleGetTrades st market = HResult.badRequest "orderbook not found" ∧
      handleGetBestBid st market = HResult.panicked ∧
      handleGetBestAsk st market = HResult.panicked := by
  refine ⟨?_, ?_, ?_, ?_⟩ <;>
    simp [handleGetBook, handleGetTrades, handleGetBestBid, handleGetBestAsk, h]

/-- Witness for C3 at the fresh exchange and the market `"BTC"`. -/
theorem c3_unknown_market_witness :
    handleGetBook emptyState "BTC" = HResult.badRequest "market not found" ∧
      handleGetTrades emptyState "BTC" = HResult.badRequest "orderbook not found" ∧
      handleGetBestBid emptyState "BTC" = HResult.panicked ∧
      handleGetBestAsk emptyState "BTC" = HResult.panicked :=
  c3_unknown_market emptyState "BTC" (by decide)

/-! ## C4 — top-of-book responses -/

/-- C4: on the existing market `"ETH"`, an empty side is answered with
the zero-valued `Order` record (price 0, user 0); a non-empty side is
answered with the best Limit's price and the user id of that Limit's
head (oldest, highest-priority) order — and nothing else is set. -/
theorem c4_best_bid_ask (st : ExchangeState) :
    (st.bids = [] → handleGetBestBid st "ETH" = HResult.ok zeroWireOrder) ∧
    (st.asks = [] → handleGetBestAsk st "ETH" = HResult.ok zeroWireOrder) ∧
    (∀ L rest rid q o, st.bids = L :: rest → L.orderIDs = rid :: q →
      st.heap rid = some o →
      handleGetBestBid st "ETH" =
        HResult.ok { zeroWireOrder with price := L.price, userID := o.userID }) ∧
    (∀ L rest rid q o, st.asks = L :: rest → L.orderIDs = rid :: q →
      st.heap rid = some o →
      handleGetBestAsk st "ETH" =
        HResult.ok { zeroWireOrder with price := L.price, userID := o.userID }) := by
  refine ⟨?_, ?_, ?_, ?_⟩
  · intro h; simp [handleGetBestBid, h]
  · intro h; simp [handleGetBestAsk, h]
  · intro L rest rid q o h1 h2 h3; simp [handleGetBestBid, h1, h2, h3]
  · intro L rest rid q o h1 h2 h3; simp [handleGetBestAsk, h1, h2, h3]

/-- Witness for C4: empty sides on the fresh exchange, populated sides
on `c4State` (best bid 100 by user 8888, best ask 110 by user 6667). -/
theorem c4_best_bid_ask_witness :
    handleGetBestBid emptyState "ETH" = HResult.ok zeroWireOrder ∧
      handleGetBestAsk emptyState "ETH" = HResult.ok zeroWireOrder ∧
      handleGetBestBid c4State "ETH" =
        HResult.ok { zeroWireOrder with price := 100, userID := 8888 } ∧
      handleGetBestAsk c4State "ETH" =
        HResult.ok { zeroWireOrder with price := 110, userID := 6667 } :=
  ⟨(c4_best_bid_ask emptyState).1 rfl,
   (c4_best_bid_ask emptyState).2.1 rfl,
   (c4_best_bid_ask c4State).2.2.1 _ _ _ _ _ rfl rfl rfl,
   (c4_best_bid_ask c4State).2.2.2 _ _ _ _ _ rfl rfl rfl⟩

/-! ## C5 — per-user order listing -/

/-- The user's orders that `handleGetOrders` renders: those whose heap
object exists and whose `Limit` back reference is non-null, paired with
the owning Limit's price, in list order. -/
def resolvedOrders (heap : Heap) (ids : List ℤ) : List (OBOrder × ℚ) :=
  ids.filterMap (fun oid =>
    (heap oid).bind (fun o => o.limitPrice.map (fun p => (o, p))))

lemma getOrders_foldl (heap : Heap) (ids : List ℤ) (acc : GetOrdersResponse) :
    ids.foldl (getOrdersStep heap) acc =
      { asks := acc.asks ++ ((resolvedOrders heap ids).filter
            (fun q => !q.1.bid)).map (fun q => renderUserOrder q.1 q.2),
        bids := acc.bids ++ ((resolvedOrders heap ids).filter
            (fun q => q.1.bid)).map (fun q => renderUserOrder q.1 q.2) } := by
  induction ids generalizing acc with
  | nil => simp [resolvedOrders]
  | cons oid rest ih =>
    simp only [List.foldl_cons, ih, resolvedOrders, List.filterMap_cons]
    cases h1 : heap oid with
    | none => simp [getOrdersStep, h1]
    | some o =>
      cases h2 : o.limitPrice with
      | none => simp [getOrdersStep, h1, h2]
      | some p =>
        cases h3 : o.bid <;>
          simp [getOrdersStep, h1, h2, h3, renderUserOrder]

/-- C5: the response of `handleGetOrders` contains exactly the user's
orders whose `Limit` back reference is non-null (null ones are
skipped), in order, each rendered with its owning Limit's price and its
current size, bids in `Bids` and the rest in `Asks`. -/
theorem c5_get_orders (st : ExchangeState) (userID : ℤ) :
    handleGetOrders st userID =
      { asks := ((resolvedOrders st.heap (lookupUserOrders st.userOrders userID)).filter
            (fun q => !q.1.bid)).map (fun q => renderUserOrder q.1 q.2),
        bids := ((resolvedOrders st.heap (lookupUserOrders st.userOrders userID)).filter
            (fun q => q.1.bid)).map (fun q => renderUserOrder q.1 q.2) } := by
  simpa [handleGetOrders] using
    getOrders_foldl st.heap (lookupUserOrders st.userOrders userID)
      { asks := [], bids := [] }

/-! ## C9 — unknown order type and the 200 `{OrderID}` response -/

/-- A decoded request with the unsupported type `"YOLO"` and size 0. -/
def c9ZeroReq : PlaceOrderRequest :=
  { userID := 7, type := "YOLO", bid := true, size := 0, price := 0,
    market := "ETH" }

/-- C9 counterexample: the decoded unknown-type request of size 0 is
NOT answered 200 with `{OrderID}` — the engine's order construction
fails on `size <= 0` (spec §4.1), which the handler's call site cannot
handle — so the claim's universal 200 response fails at this input. -/
theorem c9_counterexample :
    handlePlaceOrder emptyState c9ZeroReq = (HResult.panicked, emptyState) := by
  norm_num [handlePlaceOrder, newOrder, c9ZeroReq]

/-- C9 amended: a decoded POST `/order` of positive size whose `Type`
is neither `"LIMIT"` nor `"MARKET"` still constructs a new order and is
answered 200 with that order's id, while the order is inserted into no
book, matched against nothing, and tracked nowhere (only the heap
allocation and the id counter advance); with `size <= 0` the
spec-modelled construction fails instead. -/
theorem c9_unknown_type_accepted (st : ExchangeState) (req : PlaceOrderRequest)
    (hpos : 0 < req.size)
    (h1 : req.type ≠ "LIMIT") (h2 : req.type ≠ "MARKET") :
    (handlePlaceOrder st req).1 = HResult.ok { orderID := st.nextID } ∧
      (handlePlaceOrder st req).2.heap st.nextID =
        some { id := st.nextID, userID := req.userID, bid := req.bid,
               size := req.size, timestamp := st.clock, limitPrice := none } ∧
      (handlePlaceOrder st req).2.bids = st.bids ∧
      (handlePlaceOrder st req).2.asks = st.asks ∧
      (handlePlaceOrder st req).2.restingIDs = st.restingIDs ∧
      (handlePlaceOrder st req).2.trades = st.trades ∧
      (handlePlaceOrder st req).2.userOrders = st.userOrders := by
  simp only [handlePlaceOrder, newOrder]
  rw [if_neg (not_le.mpr hpos)]
  dsimp only
  rw [if_neg h1, if_neg h2]
  refine ⟨rfl, ?_, rfl, rfl, rfl, rfl, rfl⟩
  simp

/-- A decoded request with the unsupported type `"YOLO"`. -/
def c9Req : PlaceOrderRequest :=
  { userID := 7, type := "YOLO", bid := true, size := 5, price := 0,
    market := "ETH" }

/-- Witness for C9 at the fresh exchange and a `"YOLO"`-typed request
of positive size 5. -/
theorem c9_witness :
    (handlePlaceOrder emptyState c9Req).1 = HResult.ok { orderID := 1 } ∧
      (handlePlaceOrder emptyState c9Req).2.heap 1 =
        some { id := 1, userID := 7, bid := true, size := 5,
               timestamp := 0, limitPrice := none } ∧
      (handlePlaceOrder emptyState c9Req).2.bids = [] ∧
      (handlePlaceOrder emptyState c9Req).2.asks = [] ∧
      (handlePlaceOrder emptyState c9Req).2.restingIDs = [] ∧
      (handlePlaceOrder emptyState c9Req).2.trades = [] ∧
      (handlePlaceOrder emptyState c9Req).2.userOrders = [] :=
  c9_unknown_type_accepted emptyState c9Req (by norm_num [c9Req])
    (by decide) (by decide)

/-! ## C7 — settlement I/O strictly after engine return, outside the lock -/

lemma transferEvents_transfer (users : List (ℤ × User)) (ms : List MatchRec) :
    ∀ e ∈ transferEvents users ms, isTransferEvent e = true := by
  induction ms with
  | nil => simp [transferEvents]
  | cons m rest ih =>
    intro e he
    simp only [transferEvents] at he
    split at he
    · simp at he
    · split at he
      · simp at he
      · rcases List.mem_cons.mp he with h | h
        · subst h; rfl
        · exact ih e h

/-- C7: in the event trace of a market-order placement, every
settlement transfer occurs strictly after the return from
`PlaceMarketOrder` and strictly after the release of the exchange
lock. -/
theorem c7_transfers_after_engine_and_lock (users : List (ℤ × User))
    (ms : List MatchRec) (i j : ℕ)
    (hi : (marketOrderTrace users ms)[i]? = some TraceEvent.engineReturn ∨
          (marketOrderTrace users ms)[i]? = some TraceEvent.lockRelease)
    (hj : ∃ a b c, (marketOrderTrace users ms)[j]? =
          some (TraceEvent.transfer a b c)) :
    i < j := by
  have hassoc : marketOrderTrace users ms =
      [TraceEvent.engineCall, TraceEvent.engineReturn,
       TraceEvent.lockAcquire, TraceEvent.lockRelease] ++
        (transferEvents users ms ++ [TraceEvent.httpResponse]) := by
    simp [marketOrderTrace]
  have hj4 : 4 ≤ j := by
    by_contra hlt
    push_neg at hlt
    obtain ⟨a, b, c, hj⟩ := hj
    rw [hassoc, List.getElem?_append_left (by simpa using hlt)] at hj
    interval_cases j <;> simp at hj
  have hi4 : i < 4 := by
    by_contra hge
    push_neg at hge
    have hmem : TraceEvent.engineReturn ∈
          transferEvents users ms ++ [TraceEvent.httpResponse] ∨
        TraceEvent.lockRelease ∈
          transferEvents users ms ++ [TraceEvent.httpResponse] := by
      rcases hi with hi | hi
      · rw [hassoc, List.getElem?_append_right (by simpa using hge)] at hi
        exact Or.inl (List.getElem?_mem hi)
      · rw [hassoc, List.getElem?_append_right (by simpa using hge)] at hi
        exact Or.inr (List.getElem?_mem hi)
    rcases hmem with hm | hm <;> rcases List.mem_append.mp hm with h | h
    · have := transferEvents_transfer users ms _ h
      simp [isTransferEvent] at this
    · simp at h
    · have := transferEvents_transfer users ms _ h
      simp [isTransferEvent] at this
    · simp at h
  omega

/-- Registered users 1 and 8888 and a single match between them. -/
def c7Users : List (ℤ × User) :=
  [(1, { id := 1, privateKey := 11 }), (8888, { id := 8888, privateKey := 88 })]

/-- One match: bid user 1 takes 5/2 at price 100 from ask user 8888. -/
def c7Match : MatchRec :=
  { bidID := 3, bidUserID := 1, askID := 1, askUserID := 8888,
    sizeFilled := 5/2, price := 100 }

/-- Witness for C7: in the concrete one-match trace, the engine return
sits at index 1 and the single transfer at index 4. -/
theorem c7_witness :
    (marketOrderTrace c7Users [c7Match])[1]? = some TraceEvent.engineReturn ∧
      (marketOrderTrace c7Users [c7Match])[4]? =
        some (TraceEvent.transfer 8888 1 (int64trunc (5/2))) ∧ (1 : ℕ) < 4 :=
  ⟨rfl, rfl,
   c7_transfers_after_engine_and_lock c7Users [c7Match] 1 4 (Or.inl rfl)
     ⟨8888, 1, int64trunc (5/2), rfl⟩⟩

/-! ## C10 — per-match settlement transfers -/

lemma handleMatches_all_registered (users : List (ℤ × User))
    (ms : List MatchRec)
    (h : ∀ m ∈ ms, (lookupUser users m.askUserID).isSome ∧
                   (lookupUser users m.bidUserID).isSome) :
    handleMatches users ms = (ms.map mkTransfer, Except.ok ()) := by
  induction ms with
  | nil => simp [handleMatches]
  | cons m rest ih =>
    obtain ⟨ha, hb⟩ := h m (List.mem_cons_self m rest)
    obtain ⟨u, hu⟩ := Option.isSome_iff_exists.mp ha
    obtain ⟨v, hv⟩ := Option.isSome_iff_exists.mp hb
    have hrest := ih (fun x hx => h x (List.mem_cons_of_mem _ hx))
    simp [handleMatches, hu, hv, hrest]

lemma handleMatches_append (users : List (ℤ × User))
    (xs ys : List MatchRec)
    (h : ∀ m ∈ xs, (lookupUser users m.askUserID).isSome ∧
                   (lookupUser users m.bidUserID).isSome) :
    handleMatches users (xs ++ ys) =
      (xs.map mkTransfer ++ (handleMatches users ys).1,
       (handleMatches users ys).2) := by
  induction xs with
  | nil => simp
  | cons m rest ih =>
    obtain ⟨ha, hb⟩ := h m (List.mem_cons_self m rest)
    obtain ⟨u, hu⟩ := Option.isSome_iff_exists.mp ha
    obtain ⟨v, hv⟩ := Option.isSome_iff_exists.mp hb
    have hrest := ih (fun x hx => h x (List.mem_cons_of_mem _ hx))
    simp [handleMatches, hu, hv, hrest]

/-- C10: when every user named by the matches is registered,
`handleMatches` sends exactly one transfer per match — from the
ask-side user to the bid-side user, for `int64trunc` of `SizeFilled`
(`mkTransfer`) — and succeeds; when a match names an unregistered user,
the transfers for the earlier matches have been sent, that match's
transfer is not, and the call returns an error. -/
theorem c10_settlement (users : List (ℤ × User)) (good : List MatchRec)
    (m : MatchRec) (rest : List MatchRec)
    (hgood : ∀ x ∈ good, (lookupUser users x.askUserID).isSome ∧
                         (lookupUser users x.bidUserID).isSome)
    (hbad : lookupUser users m.askUserID = none ∨
            lookupUser users m.bidUserID = none) :
    handleMatches users good = (good.map mkTransfer, Except.ok ()) ∧
      (handleMatches users (good ++ m :: rest)).1 = good.map mkTransfer ∧
      ∃ e, (handleMatches users (good ++ m :: rest)).2 = Except.error e := by
  have hall := handleMatches_all_registered users good hgood
  have happ := handleMatches_append users good (m :: rest) hgood
  have hm : ∃ e, handleMatches users (m :: rest) = ([], Except.error e) := by
    cases ha : lookupUser users m.askUserID with
    | none =>
      refine ⟨"user not found: " ++ toString m.askUserID, ?_⟩
      simp [handleMatches, ha]
    | some u =>
      have hb : lookupUser users m.bidUserID = none := by
        rcases hbad with hb | hb
        · rw [ha] at hb; exact absurd hb (by simp)
        · exact hb
      refine ⟨"user not found: " ++ toString m.bidUserID, ?_⟩
      simp [handleMatches, ha, hb]
  obtain ⟨e, he⟩ := hm
  refine ⟨hall, ?_, ⟨e, ?_⟩⟩ <;> rw [happ, he] <;> simp

/-- A match whose ask-side user 99 is not registered. -/
def c10Bad : MatchRec :=
  { bidID := 3, bidUserID := 1, askID := 2, askUserID := 99,
    sizeFilled := 1, price := 100 }

/-- Witness for C10: with users 1 and 8888 registered, the good match
settles and the list ending in the unregistered match errors after the
good transfer. -/
theorem c10_witness :
    handleMatches c7Users [c7Match] = ([c7Match].map mkTransfer, Except.ok ()) ∧
      (handleMatches c7Users ([c7Match] ++ [c10Bad])).1 = [c7Match].map mkTransfer ∧
      ∃ e, (handleMatches c7Users ([c7Match] ++ [c10Bad])).2 = Except.error e :=
  c10_settlement c7Users [c7Match] c10Bad [] (by decide) (by decide)

/-! ## C8 — `ex.Orders` holds only unfilled orders after a market order -/

lemma lookup_prune (heap : Heap) (l : List (ℤ × List ℤ)) (u : ℤ) :
    List.lookup u (pruneUserOrders heap l) =
      (List.lookup u l).map
        (fun v => v.filter (fun i => !(heapIsFilled heap i))) := by
  induction l with
  | nil => simp [pruneUserOrders]
  | cons p rest ih =>
    obtain ⟨k, v⟩ := p
    cases h : u == k with
    | true => simp [pruneUserOrders, List.lookup, h]
    | false => simpa [pruneUserOrders, List.lookup, h] using ih

lemma mem_lookup_prune (heap : Heap) (l : List (ℤ × List ℤ)) (u i : ℤ) :
    i ∈ lookupUserOrders (pruneUserOrders heap l) u ↔
      (i ∈ lookupUserOrders l u ∧ heapIsFilled heap i = false) := by
  unfold lookupUserOrders
  rw [lookup_prune]
  cases h : List.lookup u l with
  | none => simp
  | some v => simp [List.mem_filter]

lemma placeMarketOrder_out (st : ExchangeState) (oid : ℤ)
    (ms : List MatchRec) (st1 : ExchangeState)
    (h : placeMarketOrder st oid = some (ms, st1)) :
    st1.userOrders = st.userOrders ∧ st1.nextID = st.nextID ∧
      st1.clock = st.clock := by
  simp only [placeMarketOrder] at h
  cases ho : st.heap oid with
  | none => simp only [ho] at h; exact absurd h (by simp)
  | some o =>
    simp only [ho] at h
    cases hb : o.bid with
    | false =>
      simp only [hb, Bool.false_eq_true, if_false] at h
      by_cases hv : sideVolume st.bids < o.size
      · rw [if_pos hv] at h; exact absurd h (by simp)
      · rw [if_neg hv] at h
        simp only [Option.some.injEq, Prod.mk.injEq] at h
        obtain ⟨h1, h2⟩ := h
        subst h2
        exact ⟨rfl, rfl, rfl⟩
    | true =>
      simp only [hb, eq_self_iff_true, if_true] at h
      by_cases hv : sideVolume st.asks < o.size
      · rw [if_pos hv] at h; exact absurd h (by simp)
      · rw [if_neg hv] at h
        simp only [Option.some.injEq, Prod.mk.injEq] at h
        obtain ⟨h1, h2⟩ := h
        subst h2
        exact ⟨rfl, rfl, rfl⟩

/-- C8: after every completed `handlePlaceMarketOrder`, `ex.Orders`
contains exactly the previously tracked order ids that are not fully
filled in the resulting heap: filled orders are pruned from every
user's list and no unfilled order is lost. -/
theorem c8_user_orders_pruned (st : ExchangeState) (market : String)
    (oid : ℤ) (ms : List MatchRec) (mo : List MatchedOrder)
    (st2 : ExchangeState)
    (h : handlePlaceMarketOrder st market oid = some (ms, mo, st2)) :
    ∀ u i, i ∈ lookupUserOrders st2.userOrders u ↔
      (i ∈ lookupUserOrders st.userOrders u ∧
       heapIsFilled st2.heap i = false) := by
  simp only [handlePlaceMarketOrder] at h
  by_cases hmkt : market = "ETH"
  · rw [if_pos hmkt] at h
    cases hpm : placeMarketOrder st oid with
    | none => rw [hpm] at h; exact absurd h (by simp)
    | some pr =>
      obtain ⟨ms1, st1⟩ := pr
      rw [hpm] at h
      simp only [Option.some.injEq, Prod.mk.injEq] at h
      obtain ⟨h1, h2, h3⟩ := h
      obtain ⟨hu, -, -⟩ := placeMarketOrder_out st oid ms1 st1 hpm
      subst h3
      intro u i
      simpa [hu] using mem_lookup_prune st1.heap st1.userOrders u i
  · rw [if_neg hmkt] at h; exact absurd h (by simp)

/-- A book with user 8888's ask of size 5 resting at price 100
(tracked in `ex.Orders`), and a freshly constructed market bid of size
5 by user 1 (order id 2) about to consume it. -/
def c8State : ExchangeState :=
  { heap := fun i =>
      if i = 1 then
        some { id := 1, userID := 8888, bid := false, size := 5,
               timestamp := 0, limitPrice := some 100 }
      else if i = 2 then
        some { id := 2, userID := 1, bid := true, size := 5,
               timestamp := 0, limitPrice := none }
      else none,
    nextID := 3, clock := 0,
    bids := [],
    asks := [{ price := 100, orderIDs := [1], totalVolume := 5 }],
    restingIDs := [1], trades := [], userOrders := [(8888, [1])],
    users := [] }

lemma option_eq_some_getD {α : Type} (o : Option α) (d : α)
    (h : o.isSome = true) : o = some (o.getD d) := by
  cases o with
  | none => simp at h
  | some a => rfl

/-- The result of running the market order of `c8State`. -/
def c8Run : Option (List MatchRec × List MatchedOrder × ExchangeState) :=
  handlePlaceMarketOrder c8State "ETH" 2

/-- The matches of that run. -/
def c8MatchesOut : List MatchRec := (c8Run.getD ([], [], c8State)).1

/-- The matched-order view of that run. -/
def c8MatchedOut : List MatchedOrder := (c8Run.getD ([], [], c8State)).2.1

/-- The exchange state after that run. -/
def c8StOut : ExchangeState := (c8Run.getD ([], [], c8State)).2.2

lemma c8Run_isSome : c8Run.isSome = true := by
  norm_num [c8Run, handlePlaceMarketOrder, placeMarketOrder, c8State,
    sideVolume, walkLimits, fillOrders, updHeap]

/-- Witness for C8: the filled resting ask (order id 1 of user 8888)
is pruned from `ex.Orders` by the concrete run. -/
theorem c8_witness :
    (1 : ℤ) ∈ lookupUserOrders c8StOut.userOrders 8888 ↔
      ((1 : ℤ) ∈ lookupUserOrders c8State.userOrders 8888 ∧
       heapIsFilled c8StOut.heap 1 = false) :=
  c8_user_orders_pruned c8State "ETH" 2 c8MatchesOut c8MatchedOut c8StOut
    (option_eq_some_getD c8Run ([], [], c8State) c8Run_isSome) 8888 1

/-! ## C6 — engine-assigned order ids -/

/-- No order object exists at or above the id counter: the counter's
next value is genuinely fresh. -/
def IdsFresh (st : ExchangeState) : Prop :=
  ∀ i, st.nextID ≤ i → st.heap i = none

lemma updHeap_none (heap : Heap) (oid : ℤ) (f : OBOrder → OBOrder) (i : ℤ)
    (h : heap i = none) : updHeap heap oid f i = none := by
  unfold updHeap
  by_cases hi : i = oid
  · subst hi; simp [h]
  · simp [hi, h]

lemma fillOrders_heap_none (tb : Bool) (tid tu : ℤ) (price : ℚ)
    (q : List ℤ) (heap : Heap) (isize : ℚ) (i : ℤ) (h : heap i = none) :
    (fillOrders tb tid tu price heap q isize).1 i = none := by
  induction q generalizing heap isize with
  | nil => simpa [fillOrders] using h
  | cons rid rest ih =>
    simp only [fillOrders]
    by_cases h0 : isize ≤ 0
    · simpa [h0] using h
    · rw [if_neg h0]
      cases hr : heap rid with
      | none => exact ih heap isize h
      | some r =>
        dsimp only
        by_cases hz : r.size - min r.size isize = 0
        · rw [if_pos hz]
          exact ih _ _ (updHeap_none _ _ _ _ (updHeap_none _ _ _ _
            (updHeap_none _ _ _ _ h)))
        · rw [if_neg hz]
          exact updHeap_none _ _ _ _ (updHeap_none _ _ _ _ h)

lemma walkLimits_heap_none (tb : Bool) (tid tu : ℤ) (ls : List Limit)
    (heap : Heap) (isize : ℚ) (i : ℤ) (h : heap i = none) :
    (walkLimits tb tid tu heap ls isize).1 i = none := by
  induction ls generalizing heap isize with
  | nil => simpa [walkLimits] using h
  | cons L rest ih =>
    simp only [walkLimits]
    by_cases h0 : isize ≤ 0
    · simpa [h0] using h
    · rw [if_neg h0]
      have hf := fillOrders_heap_none tb tid tu L.price L.orderIDs heap isize i h
      by_cases hq : (fillOrders tb tid tu L.price heap L.orderIDs isize).2.2.1 = []
      · rw [if_pos hq]
        exact ih _ _ hf
      · rw [if_neg hq]
        exact hf

lemma placeMarketOrder_heap_none (st : ExchangeState) (oid : ℤ)
    (ms : List MatchRec) (st1 : ExchangeState)
    (h : placeMarketOrder st oid = some (ms, st1)) (i : ℤ)
    (hn : st.heap i = none) : st1.heap i = none := by
  simp only [placeMarketOrder] at h
  cases ho : st.heap oid with
  | none => simp only [ho] at h; exact absurd h (by simp)
  | some o =>
    simp only [ho] at h
    cases hb : o.bid with
    | false =>
      simp only [hb, Bool.false_eq_true, if_false] at h
      by_cases hv : sideVolume st.bids < o.size
      · rw [if_pos hv] at h; exact absurd h (by simp)
      · rw [if_neg hv] at h
        simp only [Option.some.injEq, Prod.mk.injEq] at h
        obtain ⟨h1, h2⟩ := h
        subst h2
        exact walkLimits_heap_none false oid o.userID st.bids st.heap o.size i hn
    | true =>
      simp only [hb, eq_self_iff_true, if_true] at h
      by_cases hv : sideVolume st.asks < o.size
      · rw [if_pos hv] at h; exact absurd h (by simp)
      · rw [if_neg hv] at h
        simp only [Option.some.injEq, Prod.mk.injEq] at h
        obtain ⟨h1, h2⟩ := h
        subst h2
        exact walkLimits_heap_none true oid o.userID st.asks st.heap o.size i hn

lemma placeLimitOrder_fields (st : ExchangeState) (price : ℚ) (oid : ℤ) :
    (placeLimitOrder st price oid).nextID = st.nextID ∧
      ∀ i, st.heap i = none → (placeLimitOrder st price oid).heap i = none := by
  unfold placeLimitOrder
  cases ho : st.heap oid with
  | none => exact ⟨rfl, fun i hn => hn⟩
  | some o =>
    by_cases hb : o.bid = true <;>
      simp [hb] <;> exact fun i hn => updHeap_none _ _ _ _ hn

lemma handlePlaceLimitOrder_fields (st : ExchangeState) (market : String)
    (price : ℚ) (oid : ℤ) (st2 : ExchangeState)
    (h : handlePlaceLimitOrder st market price oid = some st2) :
    st2.nextID = st.nextID ∧
      ∀ i, st.heap i = none → st2.heap i = none := by
  unfold handlePlaceLimitOrder at h
  by_cases hm : market = "ETH"
  · rw [if_pos hm] at h
    simp only [Option.some.injEq] at h
    subst h
    exact ⟨(placeLimitOrder_fields st price oid).1,
           fun i hn => (placeLimitOrder_fields st price oid).2 i hn⟩
  · rw [if_neg hm] at h; exact absurd h (by simp)

lemma handlePlaceMarketOrder_fields (st : ExchangeState) (market : String)
    (oid : ℤ) (ms : List MatchRec) (mo : List MatchedOrder)
    (st2 : ExchangeState)
    (h : handlePlaceMarketOrder st market oid = some (ms, mo, st2)) :
    st2.nextID = st.nextID ∧
      ∀ i, st.heap i = none → st2.heap i = none := by
  simp only [handlePlaceMarketOrder] at h
  by_cases hm : market = "ETH"
  · rw [if_pos hm] at h
    cases hpm : placeMarketOrder st oid with
    | none => rw [hpm] at h; exact absurd h (by simp)
    | some pr =>
      obtain ⟨ms1, st1⟩ := pr
      rw [hpm] at h
      simp only [Option.some.injEq, Prod.mk.injEq] at h
      obtain ⟨h1, h2, h3⟩ := h
      subst h3
      exact ⟨(placeMarketOrder_out st oid ms1 st1 hpm).2.1,
             fun i hn => placeMarketOrder_heap_none st oid ms1 st1 hpm i hn⟩
  · rw [if_neg hm] at h; exact absurd h (by simp)

lemma newOrder_out (st : ExchangeState) (bid : Bool) (size : ℚ)
    (userID : ℤ) (oid : ℤ) (st1 : ExchangeState)
    (h : newOrder st bid size userID = some (oid, st1)) :
    oid = st.nextID ∧ st1.nextID = st.nextID + 1 ∧
      (∀ i, i ≠ st.nextID → st1.heap i = st.heap i) := by
  simp only [newOrder] at h
  by_cases hsz : size ≤ 0
  · rw [if_pos hsz] at h; exact absurd h (by simp)
  · rw [if_neg hsz] at h
    simp only [Option.some.injEq, Prod.mk.injEq] at h
    obtain ⟨h1, h2⟩ := h
    subst h1
    subst h2
    exact ⟨rfl, rfl, fun i hi => by simp [hi]⟩

/-- C6: every POST `/order` answered 200 carries in `{OrderID}` the id
freshly assigned by the engine's counter to the order constructed for
that request — independent of everything in the request body, which has
no id field — that id named no existing order, and after the call the
counter has advanced past it with freshness preserved, so a duplicate
order id can never occur. -/
theorem c6_engine_assigned_ids (st : ExchangeState)
    (req : PlaceOrderRequest) (hfresh : IdsFresh st)
    (r : PlaceOrderResponse) (st2 : ExchangeState)
    (hok : handlePlaceOrder st req = (HResult.ok r, st2)) :
    r.orderID = st.nextID ∧ st.heap r.orderID = none ∧
      st2.nextID = st.nextID + 1 ∧ IdsFresh st2 := by
  simp only [handlePlaceOrder] at hok
  cases hno : newOrder st req.bid req.size req.userID with
  | none => simp only [hno] at hok; exact absurd hok (by simp)
  | some p =>
    obtain ⟨oid, st1⟩ := p
    simp only [hno] at hok
    obtain ⟨hoid, hnid, hheapi⟩ :=
      newOrder_out st req.bid req.size req.userID oid st1 hno
    subst hoid
    have hfresh1 : ∀ i, st.nextID + 1 ≤ i → st1.heap i = none := by
      intro i hi
      rw [hheapi i (by omega)]
      exact hfresh i (by omega)
    by_cases hL : req.type = "LIMIT"
    · rw [if_pos hL] at hok
      cases hpl : handlePlaceLimitOrder st1 req.market req.price st.nextID with
      | none =>
        rw [hpl] at hok
        exact absurd hok (by simp)
      | some st2' =>
        rw [hpl] at hok
        simp only [Prod.mk.injEq, HResult.ok.injEq] at hok
        obtain ⟨hr, hst⟩ := hok
        subst hst
        obtain ⟨hn, hh⟩ := handlePlaceLimitOrder_fields _ _ _ _ _ hpl
        refine ⟨by rw [← hr], ?_, ?_, ?_⟩
        · rw [← hr]; exact hfresh st.nextID le_rfl
        · rw [hn, hnid]
        · intro i hi
          rw [hn, hnid] at hi
          exact hh i (hfresh1 i hi)
    · rw [if_neg hL] at hok
      by_cases hM : req.type = "MARKET"
      · rw [if_pos hM] at hok
        cases hpm : handlePlaceMarketOrder st1 req.market st.nextID with
        | none =>
          rw [hpm] at hok
          exact absurd hok (by simp)
        | some pr =>
          obtain ⟨ms, mo, st2'⟩ := pr
          simp only [hpm] at hok
          cases hhm : (handleMatches st2'.users ms).2 with
          | error e =>
            simp only [hhm] at hok
            exact absurd hok (by simp)
          | ok u =>
            simp only [hhm] at hok
            simp only [Prod.mk.injEq, HResult.ok.injEq] at hok
            obtain ⟨hr, hst⟩ := hok
            subst hst
            obtain ⟨hn, hh⟩ := handlePlaceMarketOrder_fields _ _ _ _ _ _ hpm
            refine ⟨by rw [← hr], ?_, ?_, ?_⟩
            · rw [← hr]; exact hfresh st.nextID le_rfl
            · rw [hn, hnid]
            · intro i hi
              rw [hn, hnid] at hi
              exact hh i (hfresh1 i hi)
      · rw [if_neg hM] at hok
        simp only [Prod.mk.injEq, HResult.ok.injEq] at hok
        obtain ⟨hr, hst⟩ := hok
        subst hst
        refine ⟨by rw [← hr], ?_, hnid, ?_⟩
        · rw [← hr]; exact hfresh st.nextID le_rfl
        · intro i hi
          rw [hnid] at hi
          exact hfresh1 i hi

/-- A LIMIT request by user 7: buy 5 at price 100 on `"ETH"`. -/
def c6Req : PlaceOrderRequest :=
  { userID := 7, type := "LIMIT", bid := true, size := 5, price := 100,
    market := "ETH" }

/-- The run of `c6Req` against the fresh exchange. -/
def c6Run : HResult PlaceOrderResponse × ExchangeState :=
  handlePlaceOrder emptyState c6Req

/-- The response body of that run. -/
def c6Resp : PlaceOrderResponse :=
  match c6Run.1 with
  | HResult.ok r => r
  | _ => { orderID := 0 }

/-- Witness for C6: the concrete LIMIT placement on the fresh exchange
is answered with the engine-assigned id 1, previously unused, and the
counter moves to 2. -/
theorem c6_witness :
    c6Resp.orderID = emptyState.nextID ∧
      emptyState.heap c6Resp.orderID = none ∧
      c6Run.2.nextID = emptyState.nextID + 1 ∧ IdsFresh c6Run.2 := by
  have hv : c6Run.1 = HResult.ok { orderID := 1 } := by
    norm_num [c6Run, c6Req, handlePlaceOrder, newOrder, handlePlaceLimitOrder,
      placeLimitOrder, emptyState, updHeap, addToSide, insertUserOrder]
  have hresp : c6Resp = { orderID := 1 } := by
    simp only [c6Resp, hv]
  have hok : handlePlaceOrder emptyState c6Req = (HResult.ok c6Resp, c6Run.2) := by
    show c6Run = (HResult.ok c6Resp, c6Run.2)
    rw [hresp, ← hv]
  exact c6_engine_assigned_ids emptyState c6Req (fun _ _ => rfl) c6Resp c6Run.2 hok

end CryptoExchange
